import Mathlib

/-!
Verification of the workflow-pinning validator
(`.github/actions/validate-workflow-pinning/validate.py`).

The Python program is shallowly embedded: YAML parse trees become the
inductive type `PyVal`, the filesystem and the YAML engine become the
record `FS`, fallible Python code (uncaught exceptions) becomes
`Except PyErr`, and printed diagnostic lines are threaded explicitly as
`List String`.
-/

namespace WorkflowPinning

/-! ## The SHA pattern

`SHA_PATTERN = re.compile(r".+@[a-f0-9]{40}$")`, used through
`SHA_PATTERN.match`, so the pattern is anchored at the start of the
string; `.` matches every character except a line feed, and `$` matches
at the end of the string or just before one line feed that ends the
string (Python `re` semantics without `re.DOTALL`/`re.MULTILINE`). -/

/-- The character class `[a-f0-9]`. -/
def isLowerHex (c : Char) : Bool :=
  (decide ('a' ≤ c) && decide (c ≤ 'f')) || (decide ('0' ≤ c) && decide (c ≤ '9'))

/-- Drop the head of a reversed character list when it is a line feed:
this realises `$`, which lets the regex ignore one final newline. -/
def stripNL (r : List Char) : List Char :=
  match r with
  | c :: t => if c = '\n' then t else c :: t
  | [] => []

/-- The matcher for `.+@[a-f0-9]{40}$` applied to a reversed character
list whose final newline (if any) is already stripped: the first 40
characters (the end of the string) must be in `[a-f0-9]`, the 41st must
be `@`, and the rest (the `.+` part) must be nonempty and free of line
feeds. -/
def shaCheck (r : List Char) : Bool :=
  match r.drop 40 with
  | c :: p =>
      decide (c = '@') && (r.take 40).all isLowerHex && decide ¬(p = []) &&
        p.all (fun x => decide ¬(x = '\n'))
  | [] => false

/-- `SHA_PATTERN.match(s)` viewed as a Boolean: the embedding of line 26
and of the use at line 111 of `validate.py`. -/
def shaMatch (s : String) : Bool :=
  shaCheck (stripNL s.data.reverse)

/-- Declarative reading of the spec pattern `^.+@[0-9a-f]{40}$` under
Python `re` semantics: the string splits as a nonempty line-feed-free
prefix, an `@`, exactly 40 lowercase hex characters, and (because of
`$`) at most one final line feed. -/
def pinnedSpec (s : String) : Prop :=
  ∃ p h t : List Char,
    s.data = p ++ '@' :: (h ++ t) ∧
    p ≠ [] ∧ (∀ c ∈ p, c ≠ '\n') ∧
    h.length = 40 ∧ (∀ c ∈ h, isLowerHex c = true) ∧
    (t = [] ∨ t = ['\n'])

/-! ## The parsed-YAML data model

`ruamel.yaml.YAML().load` yields Python values: `None`, strings,
numbers, booleans, sequences, and mappings.  Mappings carry ruamel's
line/column table `lc.data`, modelled as an association list from key to
the 0-based line of the key.  Mapping keys are modelled as strings (the
only keys the program consults are the string literals `jobs`, `runs`,
`steps`, `uses`). -/

inductive PyVal : Type where
  | pynull : PyVal
  | pybool : Bool → PyVal
  | pyint : Int → PyVal
  | pystr : String → PyVal
  | pyseq : List PyVal → PyVal
  | pymap : List (String × PyVal) → List (String × Nat) → PyVal

/-- The distinct uncaught Python exceptions the program can raise, told
apart by the source line that raises them. -/
inductive PyErr : Type where
  /-- line 48: `content` referenced after the `except` branch ran,
  so it was never assigned (`UnboundLocalError`). -/
  | unboundLocal : PyErr
  /-- line 48: `content.keys()` on a value with no `keys` attribute. -/
  | attrKeysOnRoot : PyErr
  /-- line 55: `content["jobs"].values()` on a value with no `values`
  attribute. -/
  | attrValuesOnJobs : PyErr
  /-- line 58: `step_data.get(...)` on a value with no `get`
  attribute. -/
  | attrGetOnContainer : PyErr
  /-- line 59: `step.get(...)` on a value with no `get` attribute. -/
  | attrGetOnStep : PyErr
  /-- line 58: `for step in ...` over a non-iterable value. -/
  | typeErrorIter : PyErr
  /-- lines 108/111: `os.path.isdir` / `re.match` applied to a
  non-string truthy `uses` value. -/
  | typeErrorClassify : PyErr
  /-- unreachable guard for `content["jobs"]` (`KeyError`). -/
  | keyError : PyErr
deriving DecidableEq

/-- Python truthiness (`not content`, `if step.get("uses"):`). -/
def truthy : PyVal → Bool
  | .pynull => false
  | .pybool b => b
  | .pyint n => decide ¬(n = 0)
  | .pystr s => decide ¬(s = "")
  | .pyseq [] => false
  | .pyseq (_ :: _) => true
  | .pymap [] _ => false
  | .pymap (_ :: _) _ => true

/-- Association-list lookup: Python `d[k]` / `d.get(k)` / `k in d` on a
dict (YAML mappings have no duplicate keys). -/
def assoc {α : Type} (k : String) : List (String × α) → Option α
  | [] => none
  | (k2, v) :: rest => if k2 = k then some v else assoc k rest

/-- Python `for x in v`: sequences yield their items, mappings their
keys, strings their characters; other values raise `TypeError`. -/
def pyIter : PyVal → Except PyErr (List PyVal)
  | .pyseq xs => .ok xs
  | .pymap es _ => .ok (es.map (fun e => .pystr e.1))
  | .pystr s => .ok (s.data.map (fun c => .pystr (String.mk [c])))
  | _ => .error .typeErrorIter

/-- The line number recorded for a step: `step.lc.data["uses"][0] + 1`
when the table has a `uses` entry, else `0` (unknown). -/
def stepLine (lc : List (String × Nat)) : Nat :=
  match assoc "uses" lc with
  | some l => l + 1
  | none => 0

/-- Lines 59–66: one step of the inner loop.  A step must be a mapping
(else `step.get` raises); it contributes `(uses_value, line)` exactly
when its `uses` value is truthy. -/
def processStep : PyVal → Except PyErr (Option (PyVal × Nat))
  | .pymap es lc =>
      let uses := (assoc "uses" es).getD .pynull
      if truthy uses then .ok (some (uses, stepLine lc)) else .ok none
  | _ => .error .attrGetOnStep

/-- The inner loop over a `steps` list, in source order. -/
def goSteps : List PyVal → Except PyErr (List (PyVal × Nat))
  | [] => .ok []
  | st :: rest =>
      match processStep st with
      | .error e => .error e
      | .ok r =>
          match goSteps rest with
          | .error e => .error e
          | .ok more => .ok (match r with | some x => x :: more | none => more)

/-- Lines 57–58: scan one step-container.  It must be a mapping (else
`step_data.get` raises `AttributeError`); a missing `steps` key defaults
to the empty list. -/
def processContainer : PyVal → Except PyErr (List (PyVal × Nat))
  | .pymap es _ =>
      match pyIter ((assoc "steps" es).getD (.pyseq [])) with
      | .error e => .error e
      | .ok steps => goSteps steps
  | _ => .error .attrGetOnContainer

/-- The outer loop over the step-containers, accumulating in order. -/
def goContainers : List PyVal → Except PyErr (List (PyVal × Nat))
  | [] => .ok []
  | c :: rest =>
      match processContainer c with
      | .error e => .error e
      | .ok refs =>
          match goContainers rest with
          | .error e => .error e
          | .ok more => .ok (refs ++ more)

/-- Lines 47–68 of `get_uses_statements`, given the bound value of
`content`: falsy content or a mapping with neither a `jobs` nor a
`runs` key yields no references; a truthy non-mapping root raises at
`content.keys()`; otherwise the containers are `[content["runs"]]` if
`runs` is present, else the values of `content["jobs"]`. -/
def get_uses_statements_content (content : PyVal) : Except PyErr (List (PyVal × Nat)) :=
  if truthy content then
    match content with
    | .pymap es _ =>
        if (assoc "jobs" es).isNone && (assoc "runs" es).isNone then .ok []
        else
          match assoc "runs" es with
          | some v => goContainers [v]
          | none =>
              match assoc "jobs" es with
              | some (.pymap jes _) => goContainers (jes.map (fun e => e.2))
              | some _ => .error .attrValuesOnJobs
              | none => .error .keyError
    | _ => .error .attrKeysOnRoot
  else .ok []

/-! ## The filesystem / environment model

All effects the program performs are read-only queries, gathered into
one record: `parse p` is the combined outcome of `open(p)` plus
`yaml.load` (an `Except.error msg` means the exception `e` whose text is
`msg` was raised), `isFile`/`isDir` are `os.path.isfile`/`os.path.isdir`,
and `workflowsYml`/`actionsYml` are the recursive `*.yml` globs of
`.github/workflows` and `.github/actions` in traversal order. -/

structure FS : Type where
  parse : String → Except String PyVal
  isFile : String → Bool
  isDir : String → Bool
  workflowsYml : List String
  actionsYml : List String

/-- Line 45's warning text. -/
def warnLine (path msg : String) : String :=
  "Warning: Error processing " ++ path ++ ": " ++ msg

/-- Lines 29–68: `get_uses_statements(file_path)` — the emitted lines
and the result.  When the load raises, the warning is printed and then
line 48 reads the never-assigned `content`, raising
`UnboundLocalError`. -/
def get_uses_statements (fs : FS) (path : String) :
    List String × Except PyErr (List (PyVal × Nat)) :=
  match fs.parse path with
  | .error msg => ([warnLine path msg], .error .unboundLocal)
  | .ok content => ([], get_uses_statements_content content)

/-! ## The classifier and the run orchestrator (lines 71–136) -/

/-- An apostrophe, kept out of the string literals. -/
def sq : String := String.mk [Char.ofNat 39]

/-- Line 85's banner. -/
def headerLine : String :=
  "Checking for " ++ sq ++ "uses:" ++ sq ++ " statements without SHA pins..."

/-- Approximation of Python `repr` for a list of strings, for line 96's
`FILES TO LOOK AT {changed_files}` (exact for quote-free paths). -/
def pyRepr (xs : List String) : String :=
  "[" ++ String.intercalate ", " (xs.map (fun x => sq ++ x ++ sq)) ++ "]"

/-- Line 96. -/
def discoverMsg (files : List String) : String :=
  "FILES TO LOOK AT " ++ pyRepr files

/-- Lines 115–117. -/
def allowLine (path : String) (n : Nat) (s : String) : String :=
  "[" ++ path ++ ":" ++ toString n ++ "] Ignoring allowed-unpinned: " ++ s

/-- Lines 121–123. -/
def violLine (path : String) (n : Nat) (s : String) : String :=
  "[" ++ path ++ ":" ++ toString n ++ "] ❌ ERROR: Not pinned using commit SHA: " ++ s

/-- Lines 126–129. -/
def failBanner : List String :=
  ["❌ Some workflows are using tags or branches instead of commit SHAs.",
   "Best practice: pin SHAs with comment for tag/branch <some_action>@<commit_SHA> # v<major>.<minor>.<patch>"]

/-- Line 134. -/
def okBanner : List String :=
  ["✅ All " ++ sq ++ "uses:" ++ sq ++ " statements are correctly pinned to SHAs."]

/-- Lines 106–123: classify one extracted reference.  Order: existing
directory (local action, silent), then `SHA_PATTERN.match` (pinned,
silent), then the allow list (one exception line), else a violation
(one error line, failure recorded).  A truthy non-string `uses` value
raises `TypeError` at `os.path.isdir`/`re.match`.  Returns the printed
lines and whether this reference is a violation. -/
def classifyRef (fs : FS) (allow : List String) (path : String) (r : PyVal × Nat) :
    Except PyErr (List String × Bool) :=
  match r.1 with
  | .pystr s =>
      if fs.isDir s then .ok ([], false)
      else if shaMatch s then .ok ([], false)
      else if s ∈ allow then .ok ([allowLine path r.2 s], false)
      else .ok ([violLine path r.2 s], true)
  | _ => .error .typeErrorClassify

/-- The loop over one file's references, in source order; an exception
aborts with the lines printed so far. -/
def classifyRefs (fs : FS) (allow : List String) (path : String) :
    List (PyVal × Nat) → List String × Except PyErr Bool
  | [] => ([], .ok false)
  | r :: rest =>
      match classifyRef fs allow path r with
      | .error e => ([], .error e)
      | .ok (lines, v) =>
          let (out2, res2) := classifyRefs fs allow path rest
          (lines ++ out2, res2.map (fun b => v || b))

/-- Lines 99–100: the substring filter `".github/workflows" not in
file_path and ".github/actions" not in file_path`, plus line 103's
existence check.  A path is processed exactly when this holds. -/
def pathOK (fs : FS) (f : String) : Bool :=
  (decide (".github/workflows".data <:+: f.data) || decide (".github/actions".data <:+: f.data))
    && fs.isFile f

/-- Process one file given the (already computed) outcome of the rest
of the batch: extract, then classify each reference.  An exception
discards the rest (the Python loop never reaches it). -/
def runFile1 (fs : FS) (allow : List String) (f : String)
    (rest : List String × Except PyErr Bool) : List String × Except PyErr Bool :=
  match get_uses_statements fs f with
  | (out1, .error e) => (out1, .error e)
  | (out1, .ok refs) =>
      match classifyRefs fs allow f refs with
      | (out2, .error e) => (out1 ++ out2, .error e)
      | (out2, .ok v) => (out1 ++ out2 ++ rest.1, rest.2.map (fun b => v || b))

/-- Lines 98–123: the batch loop.  Paths failing the location filter or
missing on disk are skipped silently.  Returns the printed lines and
whether any violation occurred (`fail`). -/
def runFiles (fs : FS) (allow : List String) : List String → List String × Except PyErr Bool
  | [] => ([], .ok false)
  | f :: rest =>
      if pathOK fs f then runFile1 fs allow f (runFiles fs allow rest)
      else runFiles fs allow rest

/-- Lines 125–136: the closing banner. -/
def bannerOut (fail : Bool) : List String :=
  if fail then failBanner else okBanner

/-- Lines 131–136: the returned exit code. -/
def exitOf (fail flag : Bool) : Nat :=
  if fail && flag then 1 else 0

/-- The body of `validate_workflow_files` once the candidate list and
the lines printed before the loop are fixed. -/
def validate_core (fs : FS) (allow : List String) (flag : Bool)
    (files : List String) (pre : List String) : List String × Except PyErr Nat :=
  match runFiles fs allow files with
  | (lines, .error e) => (pre ++ lines, .error e)
  | (lines, .ok fail) => (pre ++ lines ++ bannerOut fail, .ok (exitOf fail flag))

/-- Lines 88–96: the candidate files — the given list, or on an empty
list the recursive `*.yml` discovery under `.github/workflows` then
`.github/actions`. -/
def filesToCheck (fs : FS) (changed_files : List String) : List String :=
  if changed_files.isEmpty then fs.workflowsYml ++ fs.actionsYml else changed_files

/-- Lines 71–136: `validate_workflow_files(changed_files,
allow_unpinned, fail_on_error)` — every printed line, in order, and the
returned exit code (`Except.error` = an uncaught exception aborted the
run before any return). -/
def validate_workflow_files (fs : FS) (changed_files allow_unpinned : List String)
    (fail_on_error : Bool) : List String × Except PyErr Nat :=
  if changed_files.isEmpty then
    validate_core fs allow_unpinned fail_on_error (fs.workflowsYml ++ fs.actionsYml)
      [headerLine, discoverMsg (fs.workflowsYml ++ fs.actionsYml)]
  else
    validate_core fs allow_unpinned fail_on_error changed_files [headerLine]

/-- Helper for `splitWS`: the accumulator holds the current token's
characters in reverse. -/
def splitWSAux : List Char → List Char → List String
  | [], [] => []
  | [], acc => [String.mk acc.reverse]
  | c :: rest, acc =>
      if c.isWhitespace then
        match acc with
        | [] => splitWSAux rest []
        | _ => String.mk acc.reverse :: splitWSAux rest []
      else splitWSAux rest (c :: acc)

/-- Lines 144–145 of `main`: Python `str.split()` — split on runs of
whitespace, yielding no empty tokens (so the subsequent `.strip()` and
truthiness filters in the source are no-ops). -/
def splitWS (s : String) : List String :=
  splitWSAux s.data []

/-- ASCII lowercasing, as Python `str.lower()` acts on the values
compared against `("true", "1", "yes")`. -/
def lowerChar (c : Char) : Char :=
  if 'A' ≤ c ∧ c ≤ 'Z' then Char.ofNat (c.toNat + 32) else c

def lowerStr (s : String) : String :=
  String.mk (s.data.map lowerChar)

/-- Lines 139–148: `main()` under environment values
`ALL_CHANGED_FILES`, `FAIL_ON_ERROR`, `ALLOW_UNPINNED` (defaults
already substituted). -/
def mainRun (fs : FS) (all_changed_files fail_on_error_str allow_unpinned_str : String) :
    List String × Except PyErr Nat :=
  validate_workflow_files fs (splitWS all_changed_files) (splitWS allow_unpinned_str)
    (decide (lowerStr fail_on_error_str ∈ ["true", "1", "yes"]))

/-! ## Derived definitions used only in statements -/

/-- `runFiles` with the per-path filter already applied: processes every
file of its list unconditionally.  Used to state that the batch loop
behaves as if its candidate list were pre-filtered. -/
def runAllFiles (fs : FS) (allow : List String) : List String → List String × Except PyErr Bool
  | [] => ([], .ok false)
  | f :: rest => runFile1 fs allow f (runAllFiles fs allow rest)

/-- Whether a Python value is a mapping (has `get`/`keys`/`values`). -/
def isMapping : PyVal → Bool
  | .pymap _ _ => true
  | _ => false

/-- The step-containers the extractor scans for a mapping root:
`[content["runs"]]` when `runs` is present, else the values of
`content["jobs"]` (defined only when that value is itself a
mapping). -/
def containersOf (es : List (String × PyVal)) : Option (List PyVal) :=
  match assoc "runs" es with
  | some v => some [v]
  | none =>
      match assoc "jobs" es with
      | some (.pymap jes _) => some (jes.map (fun e => e.2))
      | _ => none

/-! ## Concrete fixtures -/

/-- A workflow step `uses: actions/checkout@v4`, its `uses` key on
0-based line 5. -/
def plainStep : PyVal := .pymap [("uses", .pystr "actions/checkout@v4")] [("uses", 5)]

/-- A workflow document with one job whose single step is
`plainStep`. -/
def violWF : PyVal :=
  .pymap [("jobs", .pymap [("build", .pymap [("steps", .pyseq [plainStep])] [])] [])] []

/-- A filesystem on which every path exists as a file, none as a
directory, discovery finds one workflow file, and every parse yields
`violWF`. -/
def violFS : FS :=
  { parse := fun _ => .ok violWF, isFile := fun _ => true, isDir := fun _ => false,
    workflowsYml := [".github/workflows/ci.yml"], actionsYml := [] }

/-- A filesystem on which every parse raises (malformed YAML). -/
def badFS : FS :=
  { parse := fun _ => .error "invalid yaml", isFile := fun _ => true, isDir := fun _ => false,
    workflowsYml := [], actionsYml := [] }

/-- A filesystem on which exactly the path
`foo@0000000000000000000000000000000000000000` is an existing
directory. -/
def dirFS : FS :=
  { parse := fun _ => .ok .pynull, isFile := fun _ => true,
    isDir := fun s => decide (s = "foo@0000000000000000000000000000000000000000"),
    workflowsYml := [], actionsYml := [] }

/-! ## Theorems -/

lemma isLowerHex_ne_newline {c : Char} (h : isLowerHex c = true) : c ≠ '\n' := by
  intro hc
  subst hc
  simp [isLowerHex] at h

lemma stripNL_cons_of_ne {c : Char} {t : List Char} (h : c ≠ '\n') :
    stripNL (c :: t) = c :: t := by
  simp [stripNL, h]

/-- Splitting characterisation of `shaCheck`. -/
lemma shaCheck_eq_true_iff (r : List Char) :
    shaCheck r = true ↔
      ∃ A p : List Char, r = A ++ '@' :: p ∧ A.length = 40 ∧
        (∀ c ∈ A, isLowerHex c = true) ∧ p ≠ [] ∧ (∀ c ∈ p, c ≠ '\n') := by
  constructor
  · intro hmain
    cases hd : r.drop 40 with
    | nil => simp [shaCheck, hd] at hmain
    | cons c p =>
      rw [shaCheck, hd] at hmain
      simp only [Bool.and_eq_true, decide_eq_true_eq, List.all_eq_true] at hmain
      obtain ⟨⟨⟨hc, hA⟩, hp⟩, hnl⟩ := hmain
      have hlen : 40 < r.length := by
        by_contra hle
        push_neg at hle
        rw [List.drop_eq_nil_of_le hle] at hd
        exact List.noConfusion hd
      refine ⟨r.take 40, p, ?_, ?_, fun x hx => hA x hx, hp, hnl⟩
      · rw [hc] at hd
        conv_lhs => rw [← List.take_append_drop 40 r]
        rw [hd]
      · simp [List.length_take, Nat.min_eq_left (Nat.le_of_lt hlen)]
  · rintro ⟨A, p, rfl, hA, hall, hp, hnl⟩
    have hdrop : (A ++ '@' :: p).drop 40 = '@' :: p := by
      rw [← hA, List.drop_left]
    have htake : (A ++ '@' :: p).take 40 = A := by
      rw [← hA, List.take_left]
    rw [shaCheck, hdrop, htake]
    simp only [Bool.and_eq_true, decide_eq_true_eq, List.all_eq_true]
    exact ⟨⟨⟨by simp, fun c hc => hall c hc⟩, hp⟩, hnl⟩

/-- C1. For every string `s`, `SHA_PATTERN.match(s)` succeeds iff `s`
matches `^.+@[0-9a-f]{40}$`: a nonempty (line-feed-free) prefix, an `@`,
exactly 40 lowercase hexadecimal characters, then the end of the string
(`$` also allowing one final line feed). -/
theorem claim1_pinned_iff_pattern (s : String) :
    shaMatch s = true ↔ pinnedSpec s := by
  rw [shaMatch, shaCheck_eq_true_iff]
  constructor
  · rintro ⟨A, p, hr, hA, hall, hp, hnl⟩
    cases hrev : s.data.reverse with
    | nil =>
      rw [hrev] at hr
      simp [stripNL] at hr
    | cons c t =>
      have hs : s.data = (c :: t).reverse := by
        rw [← hrev, List.reverse_reverse]
      by_cases hc : c = '\n'
      · rw [hrev, hc, stripNL, if_pos rfl] at hr
        refine ⟨p.reverse, A.reverse, ['\n'], ?_, ?_, ?_, ?_, ?_, Or.inr rfl⟩
        · rw [hs, hc, hr]
          simp [List.reverse_append]
        · simp [hp]
        · intro x hx
          exact hnl x (List.mem_reverse.mp hx)
        · simp [hA]
        · intro x hx
          exact hall x (List.mem_reverse.mp hx)
      · rw [hrev, stripNL_cons_of_ne hc] at hr
        refine ⟨p.reverse, A.reverse, [], ?_, ?_, ?_, ?_, ?_, Or.inl rfl⟩
        · rw [hs, hr]
          simp [List.reverse_append]
        · simp [hp]
        · intro x hx
          exact hnl x (List.mem_reverse.mp hx)
        · simp [hA]
        · intro x hx
          exact hall x (List.mem_reverse.mp hx)
  · rintro ⟨p, h, t, hsplit, hp, hnl, hlen, hhex, ht⟩
    have hne : h.reverse ≠ [] := by
      intro hh
      rw [List.reverse_eq_nil_iff] at hh
      rw [hh] at hlen
      simp at hlen
    obtain ⟨c0, hrest, hcons⟩ : ∃ c0 rest, h.reverse = c0 :: rest := by
      cases hcase : h.reverse with
      | nil => exact absurd hcase hne
      | cons a b => exact ⟨a, b, rfl⟩
    have hc0 : c0 ≠ '\n' := by
      have : c0 ∈ h.reverse := by
        rw [hcons]
        exact List.mem_cons_self c0 hrest
      exact isLowerHex_ne_newline (hhex c0 (List.mem_reverse.mp this))
    have hstrip : stripNL (h.reverse ++ '@' :: p.reverse) = h.reverse ++ '@' :: p.reverse := by
      rw [hcons]
      exact stripNL_cons_of_ne hc0
    have hrev : s.data.reverse = t.reverse ++ (h.reverse ++ '@' :: p.reverse) := by
      rw [hsplit]
      simp [List.reverse_append]
    refine ⟨h.reverse, p.reverse, ?_, by simp [hlen], ?_, by simp [hp], ?_⟩
    · rcases ht with rfl | rfl
      · rw [hrev]
        simp only [List.reverse_nil, List.nil_append]
        exact hstrip
      · rw [hrev]
        simp only [List.reverse_cons, List.reverse_nil, List.nil_append,
          List.singleton_append]
        rw [stripNL, if_pos rfl]
    · intro x hx
      exact hhex x (List.mem_reverse.mp hx)
    · intro x hx
      exact hnl x (List.mem_reverse.mp hx)


/-- C2.  The claim says a file whose parse raises contributes zero
references, with a warning, and the batch continues.  The code instead
prints the warning and then reads the never-assigned local `content`
(line 48), so `get_uses_statements` raises `UnboundLocalError`; the
exception is uncaught and aborts the whole run: on a batch of two
files whose parses raise, only the first file's warning is printed, the
second file is never reached, and no exit code is returned. -/
theorem claim2_parse_failure_aborts_run :
    validate_workflow_files badFS
        [".github/workflows/bad.yml", ".github/workflows/other.yml"] [] true
      = ([headerLine, warnLine ".github/workflows/bad.yml" "invalid yaml"],
         .error .unboundLocal) := rfl

/-- C3.  Classification of a reference string is decided in the order
local directory, pinned, allowed, violation, first match winning: an
existing directory is accepted silently even when it matches the pin
pattern; a pin-pattern match is accepted silently whatever the
directory check said; whenever the reference is local or pinned the
allow list is never consulted (the outcome is the same for any two
allow lists); the allow list decides only for references that are
neither local nor pinned. -/
theorem claim3_classification_order (fs : FS) (allow allow2 : List String)
    (path s : String) (n : Nat) :
    (fs.isDir s = true → classifyRef fs allow path (.pystr s, n) = .ok ([], false))
    ∧ (shaMatch s = true → classifyRef fs allow path (.pystr s, n) = .ok ([], false))
    ∧ ((fs.isDir s = true ∨ shaMatch s = true) →
        classifyRef fs allow path (.pystr s, n) = classifyRef fs allow2 path (.pystr s, n))
    ∧ (fs.isDir s = false → shaMatch s = false → s ∈ allow →
        classifyRef fs allow path (.pystr s, n) = .ok ([allowLine path n s], false))
    ∧ (fs.isDir s = false → shaMatch s = false → ¬(s ∈ allow) →
        classifyRef fs allow path (.pystr s, n) = .ok ([violLine path n s], true)) := by
  refine ⟨?_, ?_, ?_, ?_, ?_⟩
  · intro hdir
    simp [classifyRef, hdir]
  · intro hpin
    by_cases hdir : fs.isDir s <;> simp [classifyRef, hdir, hpin]
  · rintro (hdir | hpin)
    · simp [classifyRef, hdir]
    · by_cases hdir : fs.isDir s <;> simp [classifyRef, hdir, hpin]
  · intro hdir hpin hmem
    simp [classifyRef, hdir, hpin, hmem]
  · intro hdir hpin hmem
    simp [classifyRef, hdir, hpin, hmem]

/-- C6.  A reference string on the allow list that is neither pinned
nor a local directory is classified Allowed: exactly one line is
printed, it is the `Ignoring allowed-unpinned` line (not a violation
line), and the reference does not count as a violation. -/
theorem claim6_allowed_logs_one_exception (fs : FS) (allow : List String)
    (path s : String) (n : Nat)
    (hmem : s ∈ allow) (hpin : shaMatch s = false) (hdir : fs.isDir s = false) :
    classifyRef fs allow path (.pystr s, n) = .ok ([allowLine path n s], false) := by
  simp [classifyRef, hdir, hpin, hmem]

/-- C6, witnessed at `actions/checkout@v4` on a one-element allow
list. -/
theorem claim6_allowed_logs_one_exception_witness :
    classifyRef violFS ["actions/checkout@v4"] ".github/workflows/ci.yml"
        (.pystr "actions/checkout@v4", 6)
      = .ok ([allowLine ".github/workflows/ci.yml" 6 "actions/checkout@v4"], false) :=
  claim6_allowed_logs_one_exception violFS ["actions/checkout@v4"]
    ".github/workflows/ci.yml" "actions/checkout@v4" 6
    (by simp) (by rfl) (by rfl)

/-- C9.  The validator is deterministic: it is embedded as a pure
function of the filesystem snapshot, the candidate list, the allow
list and the flag, so two runs over unchanged inputs produce the same
printed lines (in the same order) and the same exit code. -/
theorem claim9_deterministic (fs1 fs2 : FS) (c1 c2 a1 a2 : List String) (f1 f2 : Bool)
    (hfs : fs1 = fs2) (hc : c1 = c2) (ha : a1 = a2) (hf : f1 = f2) :
    validate_workflow_files fs1 c1 a1 f1 = validate_workflow_files fs2 c2 a2 f2 := by
  subst hfs
  subst hc
  subst ha
  subst hf
  rfl

/-- C9 at a concrete run. -/
theorem claim9_deterministic_witness :
    validate_workflow_files violFS [] [] true = validate_workflow_files violFS [] [] true :=
  claim9_deterministic violFS violFS [] [] [] [] true true rfl rfl rfl rfl

/-- C4's counterexample.  The YAML document `hello` parses to the
truthy non-mapping root `"hello"`, which contains neither a `jobs` nor
a `runs` key; the claim says it yields zero references, but line 48's
`content.keys()` raises `AttributeError` instead. -/
theorem claim4_counterexample :
    get_uses_statements_content (.pystr "hello") = .error .attrKeysOnRoot ∧
      ¬(get_uses_statements_content (.pystr "hello") = .ok []) :=
  ⟨rfl, fun h => Except.noConfusion h⟩

/-- C4 amended.  A parsed document with neither a `jobs` nor a `runs`
key yields zero extracted references provided its root is falsy (null,
false, zero, empty string, empty sequence, empty mapping) or is a
mapping; a truthy non-mapping root instead raises `AttributeError` at
`content.keys()`. -/
theorem claim4_no_jobs_runs_zero_refs (v : PyVal)
    (h : truthy v = false ∨
      ∃ es lc, v = .pymap es lc ∧ assoc "jobs" es = none ∧ assoc "runs" es = none) :
    get_uses_statements_content v = .ok [] := by
  rcases h with h | ⟨es, lc, rfl, hj, hr⟩
  · simp [get_uses_statements_content, h]
  · cases ht : truthy (.pymap es lc) with
    | false => simp [get_uses_statements_content, ht]
    | true => simp [get_uses_statements_content, ht, hj, hr]

/-- C4 amended, witnessed on the mapping `{name: x}`. -/
theorem claim4_no_jobs_runs_zero_refs_witness :
    get_uses_statements_content (.pymap [("name", .pystr "x")] []) = .ok [] :=
  claim4_no_jobs_runs_zero_refs (.pymap [("name", .pystr "x")] [])
    (Or.inr ⟨[("name", .pystr "x")], [], rfl, rfl, rfl⟩)

lemma validate_core_snd (fs : FS) (allow : List String) (flag : Bool)
    (files pre : List String) (c : Nat)
    (h : (validate_core fs allow flag files pre).2 = Except.ok c) :
    (c = 1 ↔ (runFiles fs allow files).2 = Except.ok true ∧ flag = true)
      ∧ (c = 0 ∨ c = 1) := by
  unfold validate_core at h
  rcases hrun : runFiles fs allow files with ⟨lines, res⟩
  rw [hrun] at h
  cases res with
  | error e => simp at h
  | ok fail =>
    simp only [Except.ok.injEq] at h
    subst h
    cases fail <;> cases flag <;> simp [exitOf]

lemma validate_core_fst (fs : FS) (allow : List String) (files pre : List String) :
    (validate_core fs allow true files pre).1 = (validate_core fs allow false files pre).1 := by
  unfold validate_core
  rcases hrun : runFiles fs allow files with ⟨lines, res⟩
  cases res <;> simp

lemma validate_eq_core (fs : FS) (changed allow : List String) (flag : Bool) :
    validate_workflow_files fs changed allow flag
      = validate_core fs allow flag (filesToCheck fs changed)
          (if changed.isEmpty then
            [headerLine, discoverMsg (fs.workflowsYml ++ fs.actionsYml)]
          else [headerLine]) := by
  by_cases hch : changed.isEmpty <;> simp [validate_workflow_files, filesToCheck, hch]

/-- C5.  When the run returns (no uncaught exception), the exit code is
`1` iff some violation occurred and the failure flag is enabled, and
`0` in every other case; and the printed lines — violations included —
do not depend on the flag at all, so a violation is reported the same
way when the flag is disabled. -/
theorem claim5_exit_code_iff (fs : FS) (changed allow : List String) :
    (∀ flag c, (validate_workflow_files fs changed allow flag).2 = Except.ok c →
      ((c = 1 ↔ (runFiles fs allow (filesToCheck fs changed)).2 = Except.ok true ∧ flag = true)
        ∧ (c = 0 ∨ c = 1)))
    ∧ (validate_workflow_files fs changed allow true).1
        = (validate_workflow_files fs changed allow false).1 := by
  constructor
  · intro flag c h
    rw [validate_eq_core] at h
    exact validate_core_snd fs allow flag (filesToCheck fs changed) _ c h
  · rw [validate_eq_core, validate_eq_core]
    exact validate_core_fst fs allow (filesToCheck fs changed) _

/-- C5 at a concrete violating run: the flag-enabled exit code is 1. -/
theorem claim5_exit_code_iff_witness :
    ((1 = 1 ↔ (runFiles violFS [] (filesToCheck violFS [])).2 = Except.ok true ∧ true = true)
      ∧ (1 = 0 ∨ 1 = 1)) :=
  (claim5_exit_code_iff violFS [] []).1 true 1 (by rfl)

/-- C7.  A step (a mapping) contributes a reference iff it carries a
`uses` field with a truthy value: a step with no `uses` key, or whose
`uses` value is the empty string, contributes nothing; a step whose
`uses` value is a nonempty string contributes exactly that string with
its recorded line. -/
theorem claim7_step_contributes_iff (es : List (String × PyVal)) (lc : List (String × Nat)) :
    ((∃ x, processStep (.pymap es lc) = .ok (some x)) ↔
      ∃ u, assoc "uses" es = some u ∧ truthy u = true)
    ∧ (assoc "uses" es = none → processStep (.pymap es lc) = .ok none)
    ∧ (assoc "uses" es = some (.pystr "") → processStep (.pymap es lc) = .ok none)
    ∧ (∀ s, assoc "uses" es = some (.pystr s) → ¬(s = "") →
        processStep (.pymap es lc) = .ok (some (.pystr s, stepLine lc))) := by
  refine ⟨?_, ?_, ?_, ?_⟩
  · cases hu : assoc "uses" es with
    | none => simp [processStep, hu, truthy]
    | some u =>
        cases htu : truthy u with
        | false => simp [processStep, hu, htu]
        | true => simp [processStep, hu, htu]
  · intro hu
    simp [processStep, hu, truthy]
  · intro hu
    simp [processStep, hu, truthy]
  · intro s hu hs
    simp [processStep, hu, truthy, hs]

/-- C8.  The batch loop is the unfiltered loop over the candidates
passing the location-substring and existence filter, and on an empty
candidate list the run's candidates are exactly the recursive `*.yml`
discoveries under `.github/workflows` and `.github/actions` (with the
discovery line printed after the header). -/
theorem claim8_discovery_and_filter (fs : FS) (allow : List String) (flag : Bool) :
    (∀ files, runFiles fs allow files = runAllFiles fs allow (files.filter (pathOK fs)))
    ∧ validate_workflow_files fs [] allow flag
        = validate_core fs allow flag (fs.workflowsYml ++ fs.actionsYml)
            [headerLine, discoverMsg (fs.workflowsYml ++ fs.actionsYml)] := by
  constructor
  · intro files
    induction files with
    | nil => rfl
    | cons f rest ih =>
        by_cases h : pathOK fs f <;>
          simp [runFiles, runAllFiles, List.filter_cons, h, ih]
  · rfl

lemma assoc_ne_nil {α : Type} {k : String} {es : List (String × α)} {v : α}
    (h : assoc k es = some v) : es ≠ [] := by
  cases es
  · simp [assoc] at h
  · simp

lemma pyIter_error_eq {v : PyVal} {e : PyErr} (h : pyIter v = .error e) :
    e = .typeErrorIter := by
  cases v <;> simp_all [pyIter]

lemma processStep_cases (st : PyVal) :
    (∃ r, processStep st = .ok r) ∨ processStep st = .error .attrGetOnStep := by
  cases st with
  | pymap es lc =>
      cases ht : truthy ((assoc "uses" es).getD .pynull)
      · exact Or.inl ⟨none, by simp [processStep, ht]⟩
      · exact Or.inl ⟨some ((assoc "uses" es).getD .pynull, stepLine lc),
          by simp [processStep, ht]⟩
  | pynull => exact Or.inr rfl
  | pybool b => exact Or.inr rfl
  | pyint n => exact Or.inr rfl
  | pystr s => exact Or.inr rfl
  | pyseq xs => exact Or.inr rfl

lemma goSteps_no_attrGetOnContainer (steps : List PyVal) :
    ¬(goSteps steps = .error .attrGetOnContainer) := by
  induction steps with
  | nil => intro h; exact Except.noConfusion h
  | cons st rest ih =>
      intro h
      rcases processStep_cases st with ⟨r, hr⟩ | hr
      · cases hrest : goSteps rest with
        | error e =>
            simp only [goSteps, hr, hrest] at h
            injection h with he
            subst he
            exact ih hrest
        | ok more =>
            simp only [goSteps, hr, hrest] at h
            exact Except.noConfusion h
      · simp only [goSteps, hr] at h
        injection h with he
        exact PyErr.noConfusion he

lemma processContainer_nonmap {v : PyVal} (h : isMapping v = false) :
    processContainer v = .error .attrGetOnContainer := by
  cases v <;> simp_all [isMapping, processContainer]

lemma processContainer_no_attrGet (c : PyVal) (hc : isMapping c = true) :
    ¬(processContainer c = .error .attrGetOnContainer) := by
  cases c <;> simp_all [isMapping]
  case pymap es lc =>
    intro h
    cases hit : pyIter ((assoc "steps" es).getD (.pyseq [])) with
    | error e =>
        simp only [processContainer, hit] at h
        injection h with he
        rw [pyIter_error_eq hit] at he
        exact PyErr.noConfusion he
    | ok steps =>
        simp only [processContainer, hit] at h
        exact goSteps_no_attrGetOnContainer steps h

lemma goContainers_not_ok : ∀ cs : List PyVal, (∃ c ∈ cs, isMapping c = false) →
    ∀ refs, ¬(goContainers cs = .ok refs) := by
  intro cs
  induction cs with
  | nil =>
      rintro ⟨c, hc, _⟩ refs h
      simp at hc
  | cons c rest ih =>
      rintro ⟨d, hd, hdm⟩ refs h
      cases hpc : processContainer c with
      | error e =>
          simp only [goContainers, hpc] at h
          exact Except.noConfusion h
      | ok refs1 =>
          have hcm : isMapping c = true := by
            cases hcm : isMapping c
            · rw [processContainer_nonmap hcm] at hpc
              exact Except.noConfusion hpc
            · rfl
          rcases List.mem_cons.mp hd with rfl | hdrest
          · rw [hcm] at hdm
            exact Bool.noConfusion hdm
          · cases hrest : goContainers rest with
            | error e =>
                simp only [goContainers, hpc, hrest] at h
                exact Except.noConfusion h
            | ok more => exact ih ⟨d, hdrest, hdm⟩ more hrest

lemma goContainers_no_attrGet : ∀ cs : List PyVal, (∀ c ∈ cs, isMapping c = true) →
    ¬(goContainers cs = .error .attrGetOnContainer) := by
  intro cs
  induction cs with
  | nil => intro _ h; exact Except.noConfusion h
  | cons c rest ih =>
      intro hall h
      cases hpc : processContainer c with
      | error e =>
          simp only [goContainers, hpc] at h
          injection h with he
          subst he
          exact processContainer_no_attrGet c (hall c (List.mem_cons_self c rest)) hpc
      | ok refs =>
          cases hrest : goContainers rest with
          | error e =>
              simp only [goContainers, hpc, hrest] at h
              injection h with he
              subst he
              exact ih (fun d hd => hall d (List.mem_cons_of_mem c hd)) hrest
          | ok more =>
              simp only [goContainers, hpc, hrest] at h
              exact Except.noConfusion h

/-- C10.  Reference extraction is total only on mapping
step-containers: a `runs` value that is not a mapping makes the
extractor raise `AttributeError` at `step_data.get` (line 58); a
non-mapping value inside `jobs` likewise prevents any reference list
from being returned; and when every step-container is a mapping that
error site is unreachable — whatever else happens, the result is never
the line-58 `AttributeError`. -/
theorem claim10_nonmapping_containers_raise (es : List (String × PyVal))
    (lc : List (String × Nat)) :
    (∀ v, assoc "runs" es = some v → isMapping v = false →
      get_uses_statements_content (.pymap es lc) = .error .attrGetOnContainer)
    ∧ (∀ jes jlc, assoc "runs" es = none → assoc "jobs" es = some (.pymap jes jlc) →
        (∃ j ∈ jes, isMapping j.2 = false) →
        ∀ refs, ¬(get_uses_statements_content (.pymap es lc) = .ok refs))
    ∧ (∀ cs, containersOf es = some cs → (∀ c ∈ cs, isMapping c = true) →
        ¬(get_uses_statements_content (.pymap es lc) = .error .attrGetOnContainer)) := by
  refine ⟨?_, ?_, ?_⟩
  · intro v hruns hvm
    cases es with
    | nil => simp [assoc] at hruns
    | cons e0 tl =>
        simp [get_uses_statements_content, truthy, hruns, goContainers,
          processContainer_nonmap hvm]
  · intro jes jlc hruns hjobs hex refs h
    cases es with
    | nil => simp [assoc] at hjobs
    | cons e0 tl =>
        have hex2 : ∃ c ∈ jes.map (fun e => e.2), isMapping c = false := by
          rcases hex with ⟨j, hj, hjm⟩
          exact ⟨j.2, List.mem_map.mpr ⟨j, hj, rfl⟩, hjm⟩
        refine goContainers_not_ok _ hex2 refs ?_
        simpa [get_uses_statements_content, truthy, hruns, hjobs] using h
  · intro cs hcont hall h
    cases es with
    | nil => simp [containersOf, assoc] at hcont
    | cons e0 tl =>
        unfold containersOf at hcont
        cases hruns : assoc "runs" (e0 :: tl) with
        | some v =>
            rw [hruns] at hcont
            simp only [Option.some.injEq] at hcont
            subst hcont
            have h2 : goContainers [v] = .error .attrGetOnContainer := by
              simpa [get_uses_statements_content, truthy, hruns] using h
            exact goContainers_no_attrGet [v] hall h2
        | none =>
            rw [hruns] at hcont
            cases hjobs : assoc "jobs" (e0 :: tl) with
            | none =>
                rw [hjobs] at hcont
                exact Option.noConfusion hcont
            | some jv =>
                rw [hjobs] at hcont
                cases jv <;> simp only [Option.some.injEq] at hcont <;>
                  try exact Option.noConfusion hcont
                case pymap jes jlc =>
                  subst hcont
                  have h2 : goContainers (jes.map (fun e => e.2))
                      = .error .attrGetOnContainer := by
                    simpa [get_uses_statements_content, truthy, hruns, hjobs] using h
                  exact goContainers_no_attrGet _ hall h2

end WorkflowPinning
